import Mathlib

/-!
Shallow embedding of the event-dispatch core of `launcho-libre`
(`src/launcho/GameEventSystem.cpp`), with theorems checking the
natural-language specification against it.

Modelling conventions:
* `EventID` and `EventCallbackID` are machine integers in C++; they are
  modelled as `Nat` (the claims never exercise overflow).
* An `Evt` models a `StrongEventPtr`-held `Event` value: its `EventID`
  plus a `tag` distinguishing distinct event objects of the same type
  (standing in for the name/payload, which the dispatch code never reads).
* The C++ `std::map` (ordered by key) is modelled as an association list
  kept sorted by key by `mapInsert`; `triggerEvent` iterates a bucket in
  stored order, which matches `std::map` iteration order.
* A registered callback is modelled by its effect on the dispatcher: the
  list of events it passes to `queueEvent` during one invocation (the only
  dispatcher-mutating operation the listeners of the specification's
  scenarios perform).  `triggerEvent` itself is a `const` member function
  in C++ and cannot mutate the dispatcher.
* Wall-clock time is abstracted by an oracle `elapsed : Nat → ℚ` giving
  the reading of `timer.elapsedMilliF()` at the budget check made after
  the n-th event delivery of `processQueue` (first delivery is `elapsed 1`).
-/

abbrev EventID := Nat

abbrev EventCallbackID := Nat

/-- Model of one queued/dispatched event object: its type id and a tag
distinguishing distinct instances of the same type. -/
structure Evt where
  id : EventID
  tag : Nat
deriving DecidableEq, Repr

/-- Model of an `EventCallback`: the events it enqueues (via `queueEvent`,
in order) when invoked with a given event. -/
abbrev EventCallback := Evt → List Evt

/-- Lookup in a `std::map` modelled as an association list: the value
stored under key `k`, if any (`map::find`). -/
def mapFind {α : Type} (m : List (Nat × α)) (k : Nat) : Option α :=
  match m with
  | [] => none
  | (k', v) :: rest => if k' = k then some v else mapFind rest k

/-- Insertion in a `std::map` modelled as a sorted association list
(`map::emplace`): inserts at the sorted position, and does not overwrite
an existing entry with the same key. -/
def mapInsert {α : Type} (m : List (Nat × α)) (k : Nat) (v : α) :
    List (Nat × α) :=
  match m with
  | [] => [(k, v)]
  | (k', v') :: rest =>
    if k < k' then (k, v) :: (k', v') :: rest
    else if k = k' then (k', v') :: rest
    else (k', v') :: mapInsert rest k v

/-- Erasure from a `std::map` modelled as an association list
(`map::erase` of a found iterator): removes the entry with key `k`. -/
def mapErase {α : Type} (m : List (Nat × α)) (k : Nat) : List (Nat × α) :=
  match m with
  | [] => []
  | (k', v') :: rest =>
    if k' = k then rest else (k', v') :: mapErase rest k

/-- In-place mutation of the value a found `std::map` iterator points to
(as `itr->second.erase(...)` mutates the bucket stored under `itr`). -/
def mapUpdate {α : Type} (m : List (Nat × α)) (k : Nat) (v : α) :
    List (Nat × α) :=
  match m with
  | [] => []
  | (k', v') :: rest =>
    if k' = k then (k', v) :: rest else (k', v') :: mapUpdate rest k v

/-- One bucket of the listener registry: `std::map<EventCallbackID,
EventCallback>`. -/
abbrev Bucket := List (EventCallbackID × EventCallback)

/-- Dispatcher state: `listeners` is `std::map<EventID, std::map<...>>`,
`q0`/`q1` are the two buffers of `EventQueue queues[2]`, and `activeQueue`
the index of the buffer that currently receives `queueEvent` pushes. -/
structure Sys where
  listeners : List (EventID × Bucket)
  q0 : List Evt
  q1 : List Evt
  activeQueue : Nat

/-- Read `queues[i]` (the C++ index is always 0 or 1; the model reads the
index modulo 2). -/
def getQ (s : Sys) (i : Nat) : List Evt :=
  if i % 2 = 0 then s.q0 else s.q1

/-- Write `queues[i]`. -/
def setQ (s : Sys) (i : Nat) (q : List Evt) : Sys :=
  if i % 2 = 0 then { s with q0 := q } else { s with q1 := q }

/-- Assignment to the `activeQueue` member (the flip
`activeQueue = (activeQueue + 1) & 1`). -/
def setActive (s : Sys) (i : Nat) : Sys :=
  { s with activeQueue := i }

/-- Model of `GameEventSystem::generateNextCallbackID`: the static counter
starts at 0 and the call returns `++currentID`.  Given the counter value
before the call, returns (counter after, value returned). -/
def generateNextCallbackID (currentID : Nat) : Nat × Nat :=
  (currentID + 1, currentID + 1)

/-- Counter value after `n` calls to `generateNextCallbackID`, starting
from the initial value 0 of the static local. -/
def callbackIDStateAfter : Nat → Nat
  | 0 => 0
  | n + 1 => (generateNextCallbackID (callbackIDStateAfter n)).1

/-- Value returned by the `n`-th call (1-based) to
`generateNextCallbackID` in a run of the process. -/
def nthCallbackID (n : Nat) : Nat :=
  (generateNextCallbackID (callbackIDStateAfter (n - 1))).2

/-- Model of `GameEventSystem::addListener` (lines 44-74): looks up the
event-type bucket; if the bucket exists and already holds `callbackID`,
warns and returns `false`; if the bucket does not exist, creates it and
inserts; in every other case it only returns.  The C++ `emplace` is
reached only in the `else` branch of the bucket lookup, so a new
`callbackID` under an existing bucket is NOT stored even though the
function returns `true` — the model reproduces this faithfully. -/
def addListener (s : Sys) (evtID : EventID) (callbackID : EventCallbackID)
    (fn : EventCallback) : Sys × Bool :=
  match mapFind s.listeners evtID with
  | some bucket =>
    match mapFind bucket callbackID with
    | some _ => (s, false)
    | none => (s, true)
  | none =>
    ({ s with listeners := mapInsert s.listeners evtID [(callbackID, fn)] },
     true)

/-- Model of `GameEventSystem::removeListener` (lines 76-113): erases the
entry when both lookups succeed (leaving the now possibly empty bucket in
place), otherwise only logs; the function returns `false` on every path. -/
def removeListener (s : Sys) (evtID : EventID)
    (callbackID : EventCallbackID) : Sys × Bool :=
  match mapFind s.listeners evtID with
  | some bucket =>
    match mapFind bucket callbackID with
    | some _ =>
      let ls2 := mapUpdate s.listeners evtID (mapErase bucket callbackID)
      ({ s with listeners := ls2 }, false)
    | none => (s, false)
  | none => (s, false)

/-- Model of `GameEventSystem::queueEvent` (lines 135-145): pushes the
event at the back of `queues[activeQueue]`. -/
def queueEvent (s : Sys) (evt : Evt) : Sys :=
  setQ s s.activeQueue (getQ s s.activeQueue ++ [evt])

/-- Effect of one callback invocation on the dispatcher: each event the
callback produces is passed to `queueEvent`, in order. -/
def runCallback : Sys → List Evt → Sys
  | s, [] => s
  | s, e :: rest => runCallback (queueEvent s e) rest

/-- Iteration of `triggerEvent`'s range-for over one registry bucket:
invokes each stored callback with the event (recording the invocation)
and applies its `queueEvent` effects to the state. -/
def runBucket (evt : Evt) : Bucket → Sys → Sys × List (EventCallbackID × Evt)
  | [], s => (s, [])
  | p :: rest, s =>
    let s1 := runCallback s (p.2 evt)
    let r := runBucket evt rest s1
    (r.1, (p.1, evt) :: r.2)

/-- Model of `GameEventSystem::triggerEvent` (lines 115-133): finds the
bucket for the event's type and invokes every stored callback with the
event, in bucket (= registration-id) order.  Returns the state after the
callbacks' own `queueEvent` calls, and the invocation trace. -/
def triggerEvent (s : Sys) (evt : Evt) : Sys × List (EventCallbackID × Evt) :=
  match mapFind s.listeners evt.id with
  | none => (s, [])
  | some bucket => runBucket evt bucket s

/-- Events enqueued, in order, by the callbacks that one `triggerEvent`
of `evt` invokes (the concatenation over the bucket for `evt.id`). -/
def cbEnqueues (ls : List (EventID × Bucket)) (evt : Evt) : List Evt :=
  match mapFind ls evt.id with
  | none => []
  | some bucket => (bucket.map (fun p => p.2 evt)).flatten

/-- Invocations (callback id, event) one `triggerEvent` of `evt` performs. -/
def invsFor (ls : List (EventID × Bucket)) (evt : Evt) :
    List (EventCallbackID × Evt) :=
  match mapFind ls evt.id with
  | none => []
  | some bucket => bucket.map (fun p => (p.1, evt))

/-- Model of `std::remove_if` over the active queue as
`GameEventSystem::abortAllEvents` calls it: the kept elements (those not
matching) are shifted to the front in their original order; the elements
past the returned iterator are left with unspecified values, and — since
no `erase` follows — the container's size is unchanged.  The model keeps
the original values in the unspecified positions; the theorems below rely
only on the kept prefix and on the size, which the C++ standard fixes. -/
def stdRemoveIf (p : Evt → Bool) (q : List Evt) : List Evt :=
  let kept := q.filter (fun e => !(p e))
  kept ++ q.drop kept.length

/-- Model of `GameEventSystem::abortAllEvents` (lines 170-185): snapshots
the active queue's size, applies `std::remove_if` (without erasing), and
returns the size difference — which is always 0, since `remove_if` does
not change the container's size. -/
def abortAllEvents (s : Sys) (id : EventID) : Sys × Nat :=
  let count := (getQ s s.activeQueue).length
  let q2 := stdRemoveIf (fun e => e.id == id) (getQ s s.activeQueue)
  (setQ s s.activeQueue q2, count - q2.length)

/-- Model of `GameEventSystem::abortEvent` (lines 147-168): removes the
first active-queue event of the given type, returning whether one was
found. -/
def abortEvent (s : Sys) (id : EventID) : Sys × Bool :=
  match (getQ s s.activeQueue).findIdx? (fun e => e.id == id) with
  | some i =>
    (setQ s s.activeQueue ((getQ s s.activeQueue).eraseIdx i), true)
  | none => (s, false)

/-- Drain loop of `GameEventSystem::processQueue` (lines 224-244) over the
flipped-out queue `q`.  `n` is the count of deliveries already made, and
`elapsed (n+1)` the timer reading at the budget check after delivering the
head.  When the budget is exceeded, the remaining events are copied with
`std::front_inserter` to `queues[activeQueue]` — one `push_front` per
element, hence in reversed order — and the drained queue is cleared.
Returns (final state, delivered events, invocation trace). -/
def drainLoop (elapsed : Nat → ℚ) (maxMs : ℚ) :
    List Evt → Nat → Sys → Sys × List Evt × List (EventCallbackID × Evt)
  | [], _, s => (s, [], [])
  | e :: rest, n, s =>
    let p := triggerEvent s e
    if elapsed (n + 1) > maxMs then
      (setQ p.1 p.1.activeQueue (rest.reverse ++ getQ p.1 p.1.activeQueue),
       [e], p.2)
    else
      let r := drainLoop elapsed maxMs rest (n + 1) p.1
      (r.1, e :: r.2.1, p.2 ++ r.2.2)

/-- Model of `GameEventSystem::processQueue` (lines 215-252): binds the
active queue, flips `activeQueue` with `(activeQueue + 1) & 1` so that
events queued during the drain land in the other buffer, then drains.
The C++ pops the live buffer element by element and clears it on budget
exhaustion; since the callbacks invoked during the drain only touch the
flipped-to buffer, the model empties the drained buffer up front, which
is observationally identical.  Returns (final state, delivered events,
invocation trace). -/
def processQueue (elapsed : Nat → ℚ) (maxMs : ℚ) (s : Sys) :
    Sys × List Evt × List (EventCallbackID × Evt) :=
  drainLoop elapsed maxMs (getQ s s.activeQueue) 0
    (setActive (setQ s s.activeQueue []) ((s.activeQueue + 1) &&& 1))

/-- Raw SFML key codes the translator handles (`sf::Keyboard::Key`);
`other` stands for every key without a `case` of its own. -/
inductive SfKeyCode
  | up
  | down
  | left
  | right
  | space
  | other
deriving DecidableEq, Repr

/-- Raw SFML event kinds `dispatchKeyboardEvent` asserts on. -/
inductive SfKeyEventType
  | keyPressed
  | keyReleased
deriving DecidableEq, Repr

/-- Raw keyboard event (the `code`/`type` fields `dispatchKeyboardEvent`
reads from `sf::Event`). -/
structure SfKeyEvent where
  code : SfKeyCode
  type : SfKeyEventType
deriving DecidableEq, Repr

/-- Semantic input actions (`InputAction` of `events/InputEvents.h`). -/
inductive InputAction
  | moveUp
  | moveDown
  | moveLeft
  | moveRight
  | fire
deriving DecidableEq, Repr

/-- Transition states of a semantic input event (`InputActionState`). -/
inductive InputActionState
  | start
  | stop
deriving DecidableEq, Repr

/-- Semantic input event as `dispatchKeyboardEvent` constructs it.  The
header `events/InputEvents.h` is not among the repository's staged files;
the one-argument constructor used for `InputAction::Fire` (a pulse-style
control per the spec) is modelled with `state := none`. -/
structure InputEvt where
  action : InputAction
  state : Option InputActionState
deriving DecidableEq, Repr

/-- Edge state of `dispatchKeyboardEvent`: the function-local static
array `keyStates[5]`, one held flag per logical control, all starting
`false`. -/
structure KeyStates where
  up : Bool
  down : Bool
  left : Bool
  right : Bool
  fire : Bool
deriving DecidableEq, Repr

/-- Model of `GameEventSystem::dispatchKeyboardEvent` (lines 254-372):
per-control edge detection.  Returns the new `keyStates` and the events
passed to `queueEvent`, in order (each branch queues at most one). -/
def dispatchKeyboardEvent (evt : SfKeyEvent) (ks : KeyStates) :
    KeyStates × List InputEvt :=
  match evt.code with
  | .up =>
    if evt.type = .keyPressed ∧ ¬ks.up then
      ({ ks with up := true }, [⟨.moveUp, some .start⟩])
    else if evt.type = .keyReleased ∧ ks.up then
      ({ ks with up := false }, [⟨.moveUp, some .stop⟩])
    else (ks, [])
  | .down =>
    if evt.type = .keyPressed ∧ ¬ks.down then
      ({ ks with down := true }, [⟨.moveDown, some .start⟩])
    else if evt.type = .keyReleased ∧ ks.down then
      ({ ks with down := false }, [⟨.moveDown, some .stop⟩])
    else (ks, [])
  | .left =>
    if evt.type = .keyPressed ∧ ¬ks.left then
      ({ ks with left := true }, [⟨.moveLeft, some .start⟩])
    else if evt.type = .keyReleased ∧ ks.left then
      ({ ks with left := false }, [⟨.moveLeft, some .stop⟩])
    else (ks, [])
  | .right =>
    if evt.type = .keyPressed ∧ ¬ks.right then
      ({ ks with right := true }, [⟨.moveRight, some .start⟩])
    else if evt.type = .keyReleased ∧ ks.right then
      ({ ks with right := false }, [⟨.moveRight, some .stop⟩])
    else (ks, [])
  | .space =>
    if evt.type = .keyPressed ∧ ¬ks.fire then
      ({ ks with fire := true }, [⟨.fire, none⟩])
    else if evt.type = .keyReleased ∧ ks.fire then
      ({ ks with fire := false }, [])
    else (ks, [])
  | .other => (ks, [])

/-- Held flag of the logical control a key code drives (`keyStates[i]`
for the control's enum index; `other` drives no control). -/
def heldFlag (ks : KeyStates) : SfKeyCode → Bool
  | .up => ks.up
  | .down => ks.down
  | .left => ks.left
  | .right => ks.right
  | .space => ks.fire
  | .other => false

/-- Semantic action of the logical control a key code drives (`other`
mapped arbitrarily; the theorems about it assume a real control). -/
def actionOf : SfKeyCode → InputAction
  | .up => .moveUp
  | .down => .moveDown
  | .left => .moveLeft
  | .right => .moveRight
  | .space => .fire
  | .other => .fire

/-- Event the press edge of a control queues: `(action, Start)` for the
move controls, the one-argument `Fire` event for the pulse control. -/
def startEventOf (c : SfKeyCode) : InputEvt :=
  if c = .space then ⟨.fire, none⟩ else ⟨actionOf c, some .start⟩

/-- Callback that enqueues nothing, used in concrete scenarios. -/
def cbNil : EventCallback := fun _ => []

/-- Second, distinct callback for duplicate-registration scenarios. -/
def cbOther : EventCallback := fun _ => [⟨5, 5⟩]

/-- Dispatcher state holding three queued events of type 9 and one
listener (id 1) registered for type 9. -/
def sC : Sys := ⟨[(9, [(1, cbNil)])], [⟨9, 1⟩, ⟨9, 2⟩, ⟨9, 3⟩], [], 0⟩

section Lemmas

lemma setQ_listeners (s : Sys) (i : Nat) (q : List Evt) :
    (setQ s i q).listeners = s.listeners := by
  unfold setQ; split <;> rfl

lemma setQ_activeQueue (s : Sys) (i : Nat) (q : List Evt) :
    (setQ s i q).activeQueue = s.activeQueue := by
  unfold setQ; split <;> rfl

lemma getQ_setQ_same (s : Sys) (i j : Nat) (q : List Evt)
    (h : i % 2 = j % 2) : getQ (setQ s i q) j = q := by
  unfold getQ setQ
  rcases Nat.mod_two_eq_zero_or_one i with hi | hi
  · have hj : j % 2 = 0 := by omega
    simp [hi, hj]
  · have hj : j % 2 = 1 := by omega
    simp [hi, hj]

lemma getQ_setQ_ne (s : Sys) (i j : Nat) (q : List Evt)
    (h : i % 2 ≠ j % 2) : getQ (setQ s i q) j = getQ s j := by
  unfold getQ setQ
  rcases Nat.mod_two_eq_zero_or_one i with hi | hi <;>
    rcases Nat.mod_two_eq_zero_or_one j with hj | hj <;>
    simp [hi, hj] at h ⊢

lemma getQ_mod (s : Sys) (i : Nat) : getQ s (i % 2) = getQ s i := by
  unfold getQ
  have h : i % 2 % 2 = i % 2 := by omega
  rw [h]

lemma getQ_and_one (s : Sys) (i : Nat) : getQ s (i &&& 1) = getQ s i := by
  rw [Nat.and_one_is_mod, getQ_mod]

lemma flip_mod_ne (a : Nat) : ((a + 1) &&& 1) % 2 ≠ a % 2 := by
  rw [Nat.and_one_is_mod]
  omega

lemma setActive_listeners (s : Sys) (i : Nat) :
    (setActive s i).listeners = s.listeners := rfl

lemma setActive_activeQueue (s : Sys) (i : Nat) :
    (setActive s i).activeQueue = i := rfl

lemma getQ_setActive (s : Sys) (i j : Nat) :
    getQ (setActive s i) j = getQ s j := rfl

lemma queueEvent_listeners (s : Sys) (e : Evt) :
    (queueEvent s e).listeners = s.listeners := setQ_listeners ..

lemma queueEvent_activeQueue (s : Sys) (e : Evt) :
    (queueEvent s e).activeQueue = s.activeQueue := setQ_activeQueue ..

lemma queueEvent_getQ_active (s : Sys) (e : Evt) :
    getQ (queueEvent s e) s.activeQueue = getQ s s.activeQueue ++ [e] :=
  getQ_setQ_same _ _ _ _ rfl

lemma queueEvent_getQ_other (s : Sys) (e : Evt) (j : Nat)
    (h : j % 2 ≠ s.activeQueue % 2) :
    getQ (queueEvent s e) j = getQ s j :=
  getQ_setQ_ne _ _ _ _ (fun hq => h hq.symm)

lemma runCallback_listeners (l : List Evt) (s : Sys) :
    (runCallback s l).listeners = s.listeners := by
  induction l generalizing s with
  | nil => rfl
  | cons e rest ih => rw [runCallback, ih, queueEvent_listeners]

lemma runCallback_activeQueue (l : List Evt) (s : Sys) :
    (runCallback s l).activeQueue = s.activeQueue := by
  induction l generalizing s with
  | nil => rfl
  | cons e rest ih => rw [runCallback, ih, queueEvent_activeQueue]

lemma runCallback_getQ_active (l : List Evt) (s : Sys) :
    getQ (runCallback s l) s.activeQueue = getQ s s.activeQueue ++ l := by
  induction l generalizing s with
  | nil => simp [runCallback]
  | cons e rest ih =>
    rw [runCallback]
    have h := ih (queueEvent s e)
    rw [queueEvent_activeQueue] at h
    rw [h, queueEvent_getQ_active]
    simp

lemma runCallback_getQ_other (l : List Evt) (s : Sys) (j : Nat)
    (h : j % 2 ≠ s.activeQueue % 2) :
    getQ (runCallback s l) j = getQ s j := by
  induction l generalizing s with
  | nil => rfl
  | cons e rest ih =>
    rw [runCallback]
    have h2 := ih (queueEvent s e)
    rw [queueEvent_activeQueue] at h2
    rw [h2 h, queueEvent_getQ_other _ _ _ h]

lemma runCallback_append (a b : List Evt) (s : Sys) :
    runCallback s (a ++ b) = runCallback (runCallback s a) b := by
  induction a generalizing s with
  | nil => rfl
  | cons e rest ih => rw [List.cons_append, runCallback, runCallback, ih]

lemma runBucket_fst (evt : Evt) (b : Bucket) (s : Sys) :
    (runBucket evt b s).1 =
      runCallback s ((b.map (fun p => p.2 evt)).flatten) := by
  induction b generalizing s with
  | nil => rfl
  | cons p rest ih =>
    rw [runBucket]
    simp only [List.map_cons, List.flatten_cons]
    rw [runCallback_append, ih]

lemma runBucket_snd (evt : Evt) (b : Bucket) (s : Sys) :
    (runBucket evt b s).2 = b.map (fun p => (p.1, evt)) := by
  induction b generalizing s with
  | nil => rfl
  | cons p rest ih => rw [runBucket]; simp [ih]

lemma triggerEvent_fst (s : Sys) (evt : Evt) :
    (triggerEvent s evt).1 = runCallback s (cbEnqueues s.listeners evt) := by
  unfold triggerEvent cbEnqueues
  rcases h : mapFind s.listeners evt.id with _ | bucket
  · rfl
  · exact runBucket_fst ..

lemma triggerEvent_snd (s : Sys) (evt : Evt) :
    (triggerEvent s evt).2 = invsFor s.listeners evt := by
  unfold triggerEvent invsFor
  rcases h : mapFind s.listeners evt.id with _ | bucket
  · rfl
  · exact runBucket_snd ..

lemma triggerEvent_listeners (s : Sys) (evt : Evt) :
    (triggerEvent s evt).1.listeners = s.listeners := by
  rw [triggerEvent_fst, runCallback_listeners]

lemma triggerEvent_activeQueue (s : Sys) (evt : Evt) :
    (triggerEvent s evt).1.activeQueue = s.activeQueue := by
  rw [triggerEvent_fst, runCallback_activeQueue]

lemma triggerEvent_getQ_active (s : Sys) (evt : Evt) :
    getQ (triggerEvent s evt).1 s.activeQueue =
      getQ s s.activeQueue ++ cbEnqueues s.listeners evt := by
  rw [triggerEvent_fst, runCallback_getQ_active]

lemma triggerEvent_getQ_other (s : Sys) (evt : Evt) (j : Nat)
    (h : j % 2 ≠ s.activeQueue % 2) :
    getQ (triggerEvent s evt).1 j = getQ s j := by
  rw [triggerEvent_fst, runCallback_getQ_other _ _ _ h]

lemma drainLoop_delivered_take (el : Nat → ℚ) (mx : ℚ) :
    ∀ (q : List Evt) (n : Nat) (s : Sys),
      ∃ d, (drainLoop el mx q n s).2.1 = q.take d := by
  intro q
  induction q with
  | nil => exact fun n s => ⟨0, rfl⟩
  | cons e rest ih =>
    intro n s
    rw [drainLoop]
    by_cases h : el (n + 1) > mx
    · exact ⟨1, by simp [h]⟩
    · obtain ⟨d, hd⟩ := ih (n + 1) (triggerEvent s e).1
      exact ⟨d + 1, by simp [h, hd]⟩

lemma drainLoop_ample (el : Nat → ℚ) (mx : ℚ) (h : ∀ n, ¬el n > mx) :
    ∀ (q : List Evt) (n : Nat) (s : Sys),
      drainLoop el mx q n s =
        (runCallback s ((q.map (cbEnqueues s.listeners)).flatten), q,
         (q.map (invsFor s.listeners)).flatten) := by
  intro q
  induction q with
  | nil => exact fun n s => rfl
  | cons e rest ih =>
    intro n s
    rw [drainLoop]
    have hrec := ih (n + 1) (triggerEvent s e).1
    rw [triggerEvent_listeners, triggerEvent_fst] at hrec
    simp only [if_neg (h (n + 1)), triggerEvent_fst, triggerEvent_snd, hrec,
      List.map_cons, List.flatten_cons, runCallback_append]

lemma processQueue_delivered_take (el : Nat → ℚ) (mx : ℚ) (s : Sys) :
    ∃ d, (processQueue el mx s).2.1 = (getQ s s.activeQueue).take d :=
  drainLoop_delivered_take el mx (getQ s s.activeQueue) 0 _

lemma flipped_listeners (s : Sys) :
    (setActive (setQ s s.activeQueue [])
      ((s.activeQueue + 1) &&& 1)).listeners = s.listeners := by
  rw [setActive_listeners, setQ_listeners]

lemma flipped_getQ_active (s : Sys) :
    getQ (setActive (setQ s s.activeQueue []) ((s.activeQueue + 1) &&& 1))
      ((s.activeQueue + 1) &&& 1) = getQ s (s.activeQueue + 1) := by
  rw [getQ_setActive,
    getQ_setQ_ne s s.activeQueue _ []
      (fun hc => flip_mod_ne s.activeQueue hc.symm),
    getQ_and_one]

lemma processQueue_ample (el : Nat → ℚ) (mx : ℚ) (h : ∀ n, ¬el n > mx)
    (s : Sys) :
    processQueue el mx s =
      (runCallback
        (setActive (setQ s s.activeQueue []) ((s.activeQueue + 1) &&& 1))
        (((getQ s s.activeQueue).map (cbEnqueues s.listeners)).flatten),
       getQ s s.activeQueue,
       ((getQ s s.activeQueue).map (invsFor s.listeners)).flatten) := by
  unfold processQueue
  rw [drainLoop_ample el mx h]
  rw [flipped_listeners]

lemma processQueue_ample_spec (el : Nat → ℚ) (mx : ℚ) (h : ∀ n, ¬el n > mx)
    (s : Sys) :
    (processQueue el mx s).2.1 = getQ s s.activeQueue
    ∧ (processQueue el mx s).2.2 =
        ((getQ s s.activeQueue).map (invsFor s.listeners)).flatten
    ∧ (processQueue el mx s).1.activeQueue = (s.activeQueue + 1) &&& 1
    ∧ (processQueue el mx s).1.listeners = s.listeners
    ∧ getQ (processQueue el mx s).1 ((processQueue el mx s).1.activeQueue)
        = getQ s (s.activeQueue + 1)
          ++ ((getQ s s.activeQueue).map (cbEnqueues s.listeners)).flatten := by
  rw [processQueue_ample el mx h s]
  refine ⟨rfl, rfl, ?_, ?_, ?_⟩
  · rw [runCallback_activeQueue, setActive_activeQueue]
  · rw [runCallback_listeners, flipped_listeners]
  · rw [runCallback_activeQueue, setActive_activeQueue]
    have hg := runCallback_getQ_active
      (((getQ s s.activeQueue).map (cbEnqueues s.listeners)).flatten)
      (setActive (setQ s s.activeQueue []) ((s.activeQueue + 1) &&& 1))
    rw [setActive_activeQueue] at hg
    rw [hg, flipped_getQ_active]

lemma processQueue_spill_first (el : Nat → ℚ) (mx : ℚ) (s : Sys) (e : Evt)
    (rest : List Evt) (hq : getQ s s.activeQueue = e :: rest)
    (hex : el 1 > mx) :
    (processQueue el mx s).2.1 = [e]
    ∧ (processQueue el mx s).2.2 = invsFor s.listeners e
    ∧ (processQueue el mx s).1.activeQueue = (s.activeQueue + 1) &&& 1
    ∧ getQ (processQueue el mx s).1 ((processQueue el mx s).1.activeQueue)
        = rest.reverse
          ++ (getQ s (s.activeQueue + 1) ++ cbEnqueues s.listeners e) := by
  unfold processQueue
  rw [hq, drainLoop]
  simp only [if_pos hex]
  have hta : (triggerEvent (setActive (setQ s s.activeQueue [])
      ((s.activeQueue + 1) &&& 1)) e).1.activeQueue
      = (s.activeQueue + 1) &&& 1 := by
    rw [triggerEvent_activeQueue, setActive_activeQueue]
  have htq : getQ (triggerEvent (setActive (setQ s s.activeQueue [])
      ((s.activeQueue + 1) &&& 1)) e).1 ((s.activeQueue + 1) &&& 1)
      = getQ s (s.activeQueue + 1) ++ cbEnqueues s.listeners e := by
    have h1 := triggerEvent_getQ_active
      (setActive (setQ s s.activeQueue []) ((s.activeQueue + 1) &&& 1)) e
    rw [setActive_activeQueue, flipped_listeners, flipped_getQ_active] at h1
    exact h1
  refine ⟨trivial, ?_, ?_, ?_⟩
  · rw [triggerEvent_snd, flipped_listeners]
  · rw [setQ_activeQueue, hta]
  · rw [setQ_activeQueue, hta, getQ_setQ_same _ _ _ _ rfl, htq]

lemma callbackIDStateAfter_eq (n : Nat) : callbackIDStateAfter n = n := by
  induction n with
  | zero => rfl
  | succ k ih => rw [callbackIDStateAfter, ih]; rfl

lemma stdRemoveIf_length (p : Evt → Bool) (q : List Evt) :
    (stdRemoveIf p q).length = q.length := by
  unfold stdRemoveIf
  have hle := List.length_filter_le (fun e => !(p e)) q
  rw [List.length_append, List.length_drop]
  omega

end Lemmas

/-- C1: the spec says `addListener(eventType, subscriptionID, callback)`
registers the callback and returns `true` whenever that exact pair is not
yet present, in particular when other subscriptions already exist under
the same event type.  The code only inserts when the event type had no
bucket at all: after registering (1, 1), a call `addListener 1 2 cbOther`
returns `true` yet stores nothing — the bucket still holds only callback
1, and delivering a type-1 event invokes only callback 1. -/
theorem addListener_drops_new_subscription_in_existing_bucket :
    ((addListener (addListener ⟨[], [], [], 0⟩ 1 1 cbNil).1 1 2 cbOther).2
      = true)
    ∧ (addListener (addListener ⟨[], [], [], 0⟩ 1 1 cbNil).1 1 2
        cbOther).1.listeners = [(1, [(1, cbNil)])]
    ∧ (triggerEvent (addListener (addListener ⟨[], [], [], 0⟩ 1 1 cbNil).1
        1 2 cbOther).1 ⟨1, 0⟩).2 = [(1, ⟨1, 0⟩)] :=
  ⟨rfl, rfl, rfl⟩

/-- C2: the spec says events left undrained at budget exhaustion are moved
to the front of the pending queue preserving their original relative
order.  The code copies them through `std::front_inserter`, which pushes
one element at a time to the front and therefore reverses them: with
active queue `[e1, e2, e3]` and the budget exhausted right after `e1` is
delivered, the next cycle's queue is `[e3, e2]`, not `[e2, e3]`. -/
theorem processQueue_spill_reverses_carryover :
    (processQueue (fun _ => 1) 0
        ⟨[], [⟨9, 1⟩, ⟨9, 2⟩, ⟨9, 3⟩], [], 0⟩).2.1 = [⟨9, 1⟩]
    ∧ getQ (processQueue (fun _ => 1) 0
        ⟨[], [⟨9, 1⟩, ⟨9, 2⟩, ⟨9, 3⟩], [], 0⟩).1
        ((processQueue (fun _ => 1) 0
          ⟨[], [⟨9, 1⟩, ⟨9, 2⟩, ⟨9, 3⟩], [], 0⟩).1.activeQueue)
        = [⟨9, 3⟩, ⟨9, 2⟩]
    ∧ (getQ (processQueue (fun _ => 1) 0
        ⟨[], [⟨9, 1⟩, ⟨9, 2⟩, ⟨9, 3⟩], [], 0⟩).1
        ((processQueue (fun _ => 1) 0
          ⟨[], [⟨9, 1⟩, ⟨9, 2⟩, ⟨9, 3⟩], [], 0⟩).1.activeQueue)
        = [⟨9, 2⟩, ⟨9, 3⟩] → False) :=
  ⟨rfl, rfl, fun hcon => absurd hcon (by decide)⟩

/-- C3: the spec says `abortAllEvents(T)` removes every active-queue event
of type T and returns the exact count removed.  The code calls
`std::remove_if` but never erases the returned range, so the container's
size is unchanged and the returned count (size before minus size after)
is always 0; in particular a queue holding one type-7 event still holds
it, and the call reports 0 events aborted. -/
theorem abortAllEvents_removes_nothing_and_returns_zero :
    (∀ (s : Sys) (id : EventID),
      (abortAllEvents s id).2 = 0
      ∧ (getQ (abortAllEvents s id).1
          ((abortAllEvents s id).1.activeQueue)).length
        = (getQ s s.activeQueue).length)
    ∧ (abortAllEvents ⟨[], [⟨7, 0⟩], [], 0⟩ 7).2 = 0
    ∧ getQ (abortAllEvents ⟨[], [⟨7, 0⟩], [], 0⟩ 7).1 0 = [⟨7, 0⟩] := by
  refine ⟨fun s id => ⟨?_, ?_⟩, rfl, rfl⟩
  · show (getQ s s.activeQueue).length
      - (stdRemoveIf (fun e => e.id == id) (getQ s s.activeQueue)).length = 0
    rw [stdRemoveIf_length]
    omega
  · show (getQ (setQ s s.activeQueue
      (stdRemoveIf (fun e => e.id == id) (getQ s s.activeQueue)))
        ((setQ s s.activeQueue
          (stdRemoveIf (fun e => e.id == id)
            (getQ s s.activeQueue))).activeQueue)).length = _
    rw [setQ_activeQueue, getQ_setQ_same _ _ _ _ rfl, stdRemoveIf_length]

/-- C5: the spec says `removeListener` returns `true` on successful
removal and `false` when the pair is absent.  The code removes a present
entry but returns `false` on every path: the general conjunct shows the
return value is `false` for every state and argument pair, and the
concrete one shows a successful removal (the bucket is left empty) that
still reports `false`. -/
theorem removeListener_always_reports_failure :
    (∀ (s : Sys) (t : EventID) (c : EventCallbackID),
      (removeListener s t c).2 = false)
    ∧ (removeListener (addListener ⟨[], [], [], 0⟩ 1 1 cbNil).1 1 1).2
        = false
    ∧ (removeListener
        (addListener ⟨[], [], [], 0⟩ 1 1 cbNil).1 1 1).1.listeners
        = [(1, [])] := by
  refine ⟨fun s t c => ?_, rfl, rfl⟩
  rcases hf : mapFind s.listeners t with _ | bucket
  · simp [removeListener, hf]
  · rcases hg : mapFind bucket c with _ | cb
    · simp [removeListener, hf, hg]
    · simp [removeListener, hf, hg]

/-- C7: a second `addListener` with an already-registered
(eventType, subscriptionID) pair returns `false` and leaves the whole
state unchanged, so the originally registered callback remains the one
stored (and hence the only one invoked) for that pair. -/
theorem addListener_duplicate_rejected (s : Sys) (t : EventID)
    (c : EventCallbackID) (bucket : Bucket) (cb0 cb2 : EventCallback)
    (h1 : mapFind s.listeners t = some bucket)
    (h2 : mapFind bucket c = some cb0) :
    addListener s t c cb2 = (s, false)
    ∧ mapFind (addListener s t c cb2).1.listeners t = some bucket
    ∧ mapFind bucket c = some cb0 := by
  have hb : addListener s t c cb2 = (s, false) := by
    simp [addListener, h1, h2]
  exact ⟨hb, by rw [hb, h1], h2⟩

/-- Witness for C7 at a concrete state: (1, 1) is registered with `cbNil`;
re-registering (1, 1) with `cbOther` returns `false` and the bucket still
holds exactly `cbNil` under id 1. -/
theorem addListener_duplicate_rejected_witness :
    addListener (addListener ⟨[], [], [], 0⟩ 1 1 cbNil).1 1 1 cbOther
      = ((addListener ⟨[], [], [], 0⟩ 1 1 cbNil).1, false)
    ∧ mapFind (addListener (addListener ⟨[], [], [], 0⟩ 1 1 cbNil).1 1 1
        cbOther).1.listeners 1 = some [(1, cbNil)]
    ∧ mapFind [(1, cbNil)] 1 = some cbNil :=
  addListener_duplicate_rejected _ 1 1 [(1, cbNil)] cbNil cbOther rfl rfl

/-- C8: the n-th call to `generateNextCallbackID` in a process run returns
n — the first call returns 1, each call returns the previous result plus
1 — and no identifier is ever issued twice (distinct calls return
distinct values). -/
theorem generateNextCallbackID_fresh_sequential :
    (∀ n : Nat, nthCallbackID (n + 1) = n + 1)
    ∧ (∀ m n : Nat,
        nthCallbackID (m + 1) = nthCallbackID (n + 1) → m = n) := by
  have hv : ∀ n : Nat, nthCallbackID (n + 1) = n + 1 := by
    intro n
    unfold nthCallbackID
    simp [callbackIDStateAfter_eq, generateNextCallbackID]
  exact ⟨hv, fun m n h => by rw [hv, hv] at h; omega⟩

/-- C10: `triggerEvent` is `const`: it leaves the listener registry, the
active-queue selector and the non-active buffer unchanged, the active
buffer changes only by the events the invoked callbacks themselves pass
to `queueEvent` (appended in order), the invocations are exactly the
stored bucket for the event's type in stored order, and when the invoked
callbacks enqueue nothing the state is exactly unchanged. -/
theorem triggerEvent_leaves_dispatcher_state_unchanged :
    ∀ (s : Sys) (evt : Evt),
      (triggerEvent s evt).1.listeners = s.listeners
      ∧ (triggerEvent s evt).1.activeQueue = s.activeQueue
      ∧ getQ (triggerEvent s evt).1 s.activeQueue
          = getQ s s.activeQueue ++ cbEnqueues s.listeners evt
      ∧ (∀ j, j % 2 ≠ s.activeQueue % 2 →
          getQ (triggerEvent s evt).1 j = getQ s j)
      ∧ (triggerEvent s evt).2 = invsFor s.listeners evt
      ∧ (cbEnqueues s.listeners evt = [] → (triggerEvent s evt).1 = s) := by
  intro s evt
  refine ⟨triggerEvent_listeners s evt, triggerEvent_activeQueue s evt,
    triggerEvent_getQ_active s evt,
    fun j hj => triggerEvent_getQ_other s evt j hj,
    triggerEvent_snd s evt, fun h => ?_⟩
  rw [triggerEvent_fst, h]
  rfl

/-- C6: the buffer flip happens before draining begins, so an event
enqueued by a listener during its own invocation is never delivered
within that drain pass and is deferred to exactly the next cycle.  For
every state and time oracle the delivered events are an initial segment
of the pre-flip active queue; when the budget never runs out the whole
queue is delivered, the next cycle's queue consists of the old pending
buffer followed by exactly the events the invoked callbacks enqueued (in
order), and a following drain with ample budget delivers exactly that
queue. -/
theorem processQueue_defers_listener_enqueued_events :
    ∀ (s : Sys) (el : Nat → ℚ) (mx : ℚ),
      (∃ d, (processQueue el mx s).2.1 = (getQ s s.activeQueue).take d)
      ∧ ((∀ n, ¬el n > mx) →
          (processQueue el mx s).2.1 = getQ s s.activeQueue
          ∧ getQ (processQueue el mx s).1
              ((processQueue el mx s).1.activeQueue)
            = getQ s (s.activeQueue + 1)
              ++ ((getQ s s.activeQueue).map
                    (cbEnqueues s.listeners)).flatten
          ∧ (∀ (el2 : Nat → ℚ) (mx2 : ℚ), (∀ n, ¬el2 n > mx2) →
              (processQueue el2 mx2 (processQueue el mx s).1).2.1
                = getQ (processQueue el mx s).1
                    ((processQueue el mx s).1.activeQueue))) := by
  intro s el mx
  refine ⟨processQueue_delivered_take el mx s, fun h => ?_⟩
  obtain ⟨h1, _, _, _, h5⟩ := processQueue_ample_spec el mx h s
  exact ⟨h1, h5, fun el2 mx2 h6 =>
    (processQueue_ample_spec el2 mx2 h6 (processQueue el mx s).1).1⟩

/-- C4 (amended): the budget check of `processQueue` runs only after an
event has been delivered, so whenever the active queue is nonempty its
first event is delivered (and its listeners invoked) regardless of the
budget — with budget 0 the delivered list is exactly the first event, and
the remaining events are carried to the next cycle's queue in reversed
order, ahead of the old pending buffer and the callbacks' enqueues. -/
theorem processQueue_delivers_head_before_budget_check
    (s : Sys) (el : Nat → ℚ) (mx : ℚ) (e : Evt) (rest : List Evt)
    (hq : getQ s s.activeQueue = e :: rest) :
    (processQueue el mx s).2.1 ≠ []
    ∧ (processQueue el mx s).2.1.head? = some e
    ∧ (el 1 > mx →
        (processQueue el mx s).2.1 = [e]
        ∧ (processQueue el mx s).2.2 = invsFor s.listeners e
        ∧ getQ (processQueue el mx s).1
            ((processQueue el mx s).1.activeQueue)
          = rest.reverse
            ++ (getQ s (s.activeQueue + 1) ++ cbEnqueues s.listeners e)) := by
  by_cases hx : el 1 > mx
  · obtain ⟨d1, d2, _, d4⟩ := processQueue_spill_first el mx s e rest hq hx
    exact ⟨by rw [d1]; simp, by rw [d1]; rfl, fun _ => ⟨d1, d2, d4⟩⟩
  · have hstep : (processQueue el mx s).2.1
        = e :: (drainLoop el mx rest 1
            (triggerEvent (setActive (setQ s s.activeQueue [])
              ((s.activeQueue + 1) &&& 1)) e).1).2.1 := by
      unfold processQueue
      rw [hq, drainLoop]
      simp [if_neg hx]
    exact ⟨by rw [hstep]; simp, by rw [hstep]; rfl,
      fun hcon => absurd hcon hx⟩

/-- Witness for C4's amended theorem at the concrete scenario: budget 0,
three type-9 events queued, one listener registered for type 9, oracle
reading 1 ms — the first event is delivered (one invocation), and the
other two are carried over reversed. -/
theorem processQueue_delivers_head_before_budget_check_witness :
    (processQueue (fun _ => 1) 0 sC).2.1 = [⟨9, 1⟩]
    ∧ (processQueue (fun _ => 1) 0 sC).2.2 = [(1, (⟨9, 1⟩ : Evt))]
    ∧ getQ (processQueue (fun _ => 1) 0 sC).1
        ((processQueue (fun _ => 1) 0 sC).1.activeQueue)
      = [⟨9, 3⟩, ⟨9, 2⟩] := by
  have h := processQueue_delivers_head_before_budget_check sC (fun _ => 1) 0
    ⟨9, 1⟩ [⟨9, 2⟩, ⟨9, 3⟩] rfl
  obtain ⟨h1, h2, h3⟩ := h.2.2 (by norm_num)
  exact ⟨h1, by rw [h2]; rfl, by rw [h3]; rfl⟩

/-- Counterexample for C4 as stated: with budget 0 and three type-9
events queued (a listener registered for type 9), the registered listener
IS invoked (with the first event) and the next cycle's queue holds only
the remaining two events, reversed — not all three in order. -/
theorem processQueue_zero_budget_still_delivers_one :
    (processQueue (fun _ => 1) 0 sC).2.2 = [(1, (⟨9, 1⟩ : Evt))]
    ∧ getQ (processQueue (fun _ => 1) 0 sC).1
        ((processQueue (fun _ => 1) 0 sC).1.activeQueue)
      = [⟨9, 3⟩, ⟨9, 2⟩]
    ∧ ((processQueue (fun _ => 1) 0 sC).2.2 = []
        ∧ getQ (processQueue (fun _ => 1) 0 sC).1
            ((processQueue (fun _ => 1) 0 sC).1.activeQueue)
          = [⟨9, 1⟩, ⟨9, 2⟩, ⟨9, 3⟩] → False) := by
  refine ⟨rfl, rfl, fun hcon => ?_⟩
  have h1 : (processQueue (fun _ => 1) 0 sC).2.2
      = [(1, (⟨9, 1⟩ : Evt))] := rfl
  exact absurd (h1.symm.trans hcon.1) (by simp)

/-- C9: per-control edge detection of `dispatchKeyboardEvent` — from a
not-held state, two consecutive key-down signals with no intervening
key-up enqueue exactly one start event (the second signal is a no-op and
the flag stays held), and a key-up while held clears the flag and
enqueues one stop event for the move controls (none for the pulse-style
fire control). -/
theorem dispatchKeyboardEvent_edge_detection
    (c : SfKeyCode) (ks : KeyStates) (h1 : c ≠ SfKeyCode.other)
    (h2 : heldFlag ks c = false) :
    (dispatchKeyboardEvent ⟨c, .keyPressed⟩ ks).2 = [startEventOf c]
    ∧ (dispatchKeyboardEvent ⟨c, .keyPressed⟩
        (dispatchKeyboardEvent ⟨c, .keyPressed⟩ ks).1).2 = []
    ∧ heldFlag (dispatchKeyboardEvent ⟨c, .keyPressed⟩
        (dispatchKeyboardEvent ⟨c, .keyPressed⟩ ks).1).1 c = true
    ∧ (∀ ks2 : KeyStates, heldFlag ks2 c = true →
        (dispatchKeyboardEvent ⟨c, .keyReleased⟩ ks2).2
          = (if c = SfKeyCode.space then []
             else [⟨actionOf c, some InputActionState.stop⟩])
        ∧ heldFlag (dispatchKeyboardEvent ⟨c, .keyReleased⟩ ks2).1 c
            = false) := by
  cases c
  case other => exact absurd rfl h1
  case up =>
    simp only [heldFlag] at h2
    refine ⟨?_, ?_, ?_, fun ks2 h3 => ?_⟩
    · simp [dispatchKeyboardEvent, startEventOf, actionOf, h2]
    · simp [dispatchKeyboardEvent, h2]
    · simp [dispatchKeyboardEvent, heldFlag, h2]
    · simp only [heldFlag] at h3
      exact ⟨by simp [dispatchKeyboardEvent, actionOf, h3],
        by simp [dispatchKeyboardEvent, heldFlag, h3]⟩
  case down =>
    simp only [heldFlag] at h2
    refine ⟨?_, ?_, ?_, fun ks2 h3 => ?_⟩
    · simp [dispatchKeyboardEvent, startEventOf, actionOf, h2]
    · simp [dispatchKeyboardEvent, h2]
    · simp [dispatchKeyboardEvent, heldFlag, h2]
    · simp only [heldFlag] at h3
      exact ⟨by simp [dispatchKeyboardEvent, actionOf, h3],
        by simp [dispatchKeyboardEvent, heldFlag, h3]⟩
  case left =>
    simp only [heldFlag] at h2
    refine ⟨?_, ?_, ?_, fun ks2 h3 => ?_⟩
    · simp [dispatchKeyboardEvent, startEventOf, actionOf, h2]
    · simp [dispatchKeyboardEvent, h2]
    · simp [dispatchKeyboardEvent, heldFlag, h2]
    · simp only [heldFlag] at h3
      exact ⟨by simp [dispatchKeyboardEvent, actionOf, h3],
        by simp [dispatchKeyboardEvent, heldFlag, h3]⟩
  case right =>
    simp only [heldFlag] at h2
    refine ⟨?_, ?_, ?_, fun ks2 h3 => ?_⟩
    · simp [dispatchKeyboardEvent, startEventOf, actionOf, h2]
    · simp [dispatchKeyboardEvent, h2]
    · simp [dispatchKeyboardEvent, heldFlag, h2]
    · simp only [heldFlag] at h3
      exact ⟨by simp [dispatchKeyboardEvent, actionOf, h3],
        by simp [dispatchKeyboardEvent, heldFlag, h3]⟩
  case space =>
    simp only [heldFlag] at h2
    refine ⟨?_, ?_, ?_, fun ks2 h3 => ?_⟩
    · simp [dispatchKeyboardEvent, startEventOf, h2]
    · simp [dispatchKeyboardEvent, h2]
    · simp [dispatchKeyboardEvent, heldFlag, h2]
    · simp only [heldFlag] at h3
      exact ⟨by simp [dispatchKeyboardEvent, h3],
        by simp [dispatchKeyboardEvent, heldFlag, h3]⟩

/-- Witness for C9 at the up control from the all-released state: the
first press queues the start event, the second press queues nothing, and
a release from the held state queues the stop event. -/
theorem dispatchKeyboardEvent_edge_detection_witness :
    (dispatchKeyboardEvent ⟨.up, .keyPressed⟩
        ⟨false, false, false, false, false⟩).2
      = [⟨.moveUp, some .start⟩]
    ∧ (dispatchKeyboardEvent ⟨.up, .keyPressed⟩
        (dispatchKeyboardEvent ⟨.up, .keyPressed⟩
          ⟨false, false, false, false, false⟩).1).2 = []
    ∧ (dispatchKeyboardEvent ⟨.up, .keyReleased⟩
        ⟨true, false, false, false, false⟩).2
      = [⟨.moveUp, some .stop⟩] := by
  have h := dispatchKeyboardEvent_edge_detection .up
    ⟨false, false, false, false, false⟩ (by decide) rfl
  refine ⟨h.1.trans (by rfl), h.2.1, ?_⟩
  exact ((h.2.2.2 ⟨true, false, false, false, false⟩ rfl).1).trans (by rfl)
